import Mathlib

/-!
Verification of the PySwiftIDE documentation pipeline
(`harvest_python_docs.py`, `generate_swift_completions.py`,
`apply_harvested_docs.py`) from the PySwiftAST repository.

Python strings are embedded as `List Char` (Python indexes code points, so a
character list is the faithful model).  Each Python helper used by the claims
is embedded as an executable Lean function; theorems about those embeddings
settle the specification claims.
-/

/-- Python strings are sequences of code points; we model them as `List Char`. -/
abbrev Str := List Char

/-- Whitespace set used by Python `str.strip()` / `str.split()` (ASCII part:
space, tab, newline, carriage return, vertical tab, form feed). -/
def pyIsSpaceB (c : Char) : Bool :=
  c == ' ' || c == '\t' || c == '\n' || c == '\r' ||
  c == Char.ofNat 11 || c == Char.ofNat 12

/-- Python `str.strip()` with no argument: drop whitespace on both ends. -/
def pyStrip (s : Str) : Str :=
  ((s.dropWhile pyIsSpaceB).reverse.dropWhile pyIsSpaceB).reverse

/-- Python `str.split('\n')`: split at every newline, keeping empty pieces. -/
def splitNl : Str → List Str
  | [] => [ [] ]
  | c :: rest =>
    if c = '\n' then [] :: splitNl rest
    else
      match splitNl rest with
      | [] => [ [ c ] ]
      | t :: ts => (c :: t) :: ts

/-- Python `sep.join(xs)`. -/
def pyJoin (sep : Str) : List Str → Str
  | [] => []
  | [ x ] => x
  | x :: y :: xs => x ++ sep ++ pyJoin sep (y :: xs)

/-- Scanning core of Python `str.find`: first index (counted from `i`) at
which `pat` occurs as a prefix of a suffix of `s`; `none` if no occurrence. -/
def pyFindAux (pat : Str) : Str → Nat → Option Nat
  | s, i =>
    if pat.isPrefixOf s then some i
    else
      match s with
      | [] => none
      | _ :: rest => pyFindAux pat rest (i + 1)

/-- Python `content.find(pat, start)`, with `none` for Python's `-1`:
first occurrence index at or after `start`. -/
def pyFind (s pat : Str) (start : Nat) : Option Nat :=
  if s.length < start then none else pyFindAux pat (s.drop start) start

/-- Occurrence test: `pat` occurs in `s` at index `i`. -/
def occursAt (s pat : Str) (i : Nat) : Bool :=
  pat.isPrefixOf (s.drop i)

/-- Bounded-fuel core of Python `str.replace` (each step consumes at least one
character of `s`, so `s.length` fuel suffices). -/
def pyReplaceGo (old new : Str) : Nat → Str → Str
  | 0, s => s
  | fuel + 1, s =>
    if old.isPrefixOf s && !old.isEmpty then
      new ++ pyReplaceGo old new fuel (s.drop old.length)
    else
      match s with
      | [] => []
      | c :: rest => c :: pyReplaceGo old new fuel rest

/-- Python `s.replace(old, new)`: replace all non-overlapping occurrences,
left to right.  (All call sites in the scripts use a non-empty `old`; for an
empty `old` this model is the identity.) -/
def pyReplace (old new s : Str) : Str :=
  pyReplaceGo old new s.length s

/-- `apply_harvested_docs.replace_section`: find the start marker, find the
end marker strictly after it, and splice `new_content` over the span from the
start of the start marker up to (excluding) the start of the end marker.
On either search failing, return the content unchanged.  (The source also
prints a warning in the failure cases; that side effect is outside this pure
embedding.) -/
def replace_section (content start_marker end_marker new_content : Str) : Str :=
  match pyFind content start_marker 0 with
  | none => content
  | some si =>
    match pyFind content end_marker (si + start_marker.length) with
    | none => content
    | some ei => content.take si ++ new_content ++ content.drop ei

/-- Modelled from the spec: the "exclusive" marker convention — both markers
are outside the replaced span and are preserved (replace strictly between the
end of the start marker and the start of the end marker). -/
def replace_section_exclusive (content start_marker end_marker new_content : Str) : Str :=
  match pyFind content start_marker 0 with
  | none => content
  | some si =>
    match pyFind content end_marker (si + start_marker.length) with
    | none => content
    | some ei => content.take (si + start_marker.length) ++ new_content ++ content.drop ei

/-- Modelled from the spec: the "inclusive" marker convention — both markers
belong to the replaced span and are removed with it. -/
def replace_section_inclusive (content start_marker end_marker new_content : Str) : Str :=
  match pyFind content start_marker 0 with
  | none => content
  | some si =>
    match pyFind content end_marker (si + start_marker.length) with
    | none => content
    | some ei => content.take si ++ new_content ++ content.drop (ei + end_marker.length)

/-- Single-space separator. -/
def spSep : Str := [ ' ' ]

/-- Python `' '.join(xs)`. -/
def joinSp (xs : List Str) : Str := pyJoin spSep xs

/-- Tokenizer core of Python `str.split()` with no argument: `acc` holds the
characters of the current token in reverse. -/
def wsTokensGo : Str → Str → List Str
  | acc, [] => if acc.isEmpty then [] else [ acc.reverse ]
  | acc, c :: rest =>
    if pyIsSpaceB c then
      if acc.isEmpty then wsTokensGo [] rest
      else acc.reverse :: wsTokensGo [] rest
    else wsTokensGo (c :: acc) rest

/-- Python `str.split()` with no argument: whitespace-delimited tokens,
empty pieces dropped. -/
def wsTokens (s : Str) : List Str := wsTokensGo [] s

/-- Loop of `harvest_python_docs.clean_docstring`: accumulate stripped lines
of the first paragraph; stop at a blank line once something was accumulated,
or as soon as the joined text exceeds 300 characters (the length test runs
after the append, so the last line may push past 300). -/
def paraLoop : List Str → List Str → List Str
  | [], acc => acc
  | l :: rest, acc =>
    let st := pyStrip l
    if st.isEmpty && !acc.isEmpty then acc
    else
      let acc' := if st.isEmpty then acc else acc ++ [ st ]
      if 300 < (joinSp acc').length then acc' else paraLoop rest acc'

/-- Escape chain of `clean_docstring`: double backslashes, escape double
quotes, then turn newlines and carriage returns into spaces (in this exact
order, as in the source). -/
def escape_swift (t : Str) : Str :=
  pyReplace [ '\r' ] [ ' ' ]
    (pyReplace [ '\n' ] [ ' ' ]
      (pyReplace [ '"' ] [ '\\', '"' ]
        (pyReplace [ '\\' ] [ '\\', '\\' ] t)))

/-- Everything `clean_docstring` does after `doc.strip().split('\n')`:
drop leading blank lines, accumulate the first paragraph, join with spaces,
escape for a Swift string literal, and normalize whitespace. -/
def cleanFromLines (lines : List Str) : Str :=
  let ls := lines.dropWhile (fun l => (pyStrip l).isEmpty)
  joinSp (wsTokens (escape_swift (joinSp (paraLoop ls []))))

/-- `harvest_python_docs.clean_docstring`.  A falsy input (Python `None` or
the empty string) yields the empty string. -/
def clean_docstring (doc : Str) : Str :=
  if doc.isEmpty then [] else cleanFromLines (splitNl (pyStrip doc))

/-- Per-character view of the escape chain (proved equal to `escape_swift`):
original backslashes come out doubled, quotes come out backslash-escaped,
newlines and carriage returns become spaces. -/
def escChar (a : Char) : Str :=
  if a = '\\' then [ '\\', '\\' ]
  else if a = '"' then [ '\\', '"' ]
  else if a = '\n' then [ ' ' ]
  else if a = '\r' then [ ' ' ]
  else [ a ]

/-- Largest length of a stripped line; bounds how far the paragraph loop can
overshoot the 300-character cutoff. -/
def maxStripLen (lines : List Str) : Nat :=
  lines.foldr (fun l m => max (pyStrip l).length m) 0

/-- No two adjacent whitespace characters. -/
def noTwoWs : Str → Bool
  | [] => true
  | [ _ ] => true
  | a :: b :: r => (!(pyIsSpaceB a && pyIsSpaceB b)) && noTwoWs (b :: r)

/-- First character (if any) is not whitespace. -/
def headNonWs : Str → Bool
  | [] => true
  | c :: _ => !pyIsSpaceB c

/-- Last character (if any) is not whitespace. -/
def lastNonWs (s : Str) : Bool :=
  match s.getLast? with
  | none => true
  | some c => !pyIsSpaceB c

/-- A whitespace-normalized string: no leading or trailing whitespace and no
internal run of two or more whitespace characters. -/
def wsNormalized (s : Str) : Bool :=
  headNonWs s && lastNonWs s && noTwoWs s

/-- Safe-for-a-double-quoted-literal check: no raw newline or carriage
return, every double quote is consumed together with an escaping backslash,
and every backslash begins an escape pair (`\\` or `\"`). -/
def okEscaped : Str → Bool
  | [] => true
  | c :: rest =>
    if c = '\\' then
      match rest with
      | [] => false
      | c2 :: rest2 => (c2 == '\\' || c2 == '"') && okEscaped rest2
    else if c = '"' then false
    else if c = '\n' then false
    else if c = '\r' then false
    else okEscaped rest

/-- Kind of an `inspect.Parameter` as far as the rendering loop reads it:
`VAR_POSITIONAL`, `VAR_KEYWORD`, or any other kind. -/
inductive PKind where
  | plain
  | varPositional
  | varKeyword
  deriving DecidableEq

/-- Default value of a parameter as consumed by `get_function_signature`:
Python `None`, a string (rendered single-quoted), or any other object
represented by its `str()` form. -/
inductive PDefault where
  | pynone
  | pystr (s : Str)
  | pyother (r : Str)
  deriving DecidableEq

/-- One entry of `inspect.signature(func).parameters`: its name, its default
(`none` for `inspect.Parameter.empty`) and its kind. -/
structure Param where
  name : Str
  dflt : Option PDefault
  kind : PKind
  deriving DecidableEq

/-- Rendering of one parameter inside the loop of `get_function_signature`:
a present default takes priority (string defaults single-quoted, `None` as
`None`, anything else via its string form); otherwise `*name` / `**name` for
variadics and the bare name for everything else. -/
def renderParam (p : Param) : Str :=
  match p.dflt with
  | some d =>
    p.name ++ ( "=".toList) ++
      (match d with
       | PDefault.pystr s => ( "'".toList) ++ s ++ ( "'".toList)
       | PDefault.pynone => ( "None".toList)
       | PDefault.pyother r => r)
  | none =>
    match p.kind with
    | PKind.varPositional => ( "*".toList) ++ p.name
    | PKind.varKeyword => ( "**".toList) ++ p.name
    | PKind.plain => p.name

/-- Parameter loop of `harvest_python_docs.get_function_signature`: walk the
signature's parameters in order, skipping every parameter named `self`
(wherever it occurs), and render each remaining one. -/
def renderParams : List Param → List Str
  | [] => []
  | p :: rest =>
    if p.name = ( "self".toList) then renderParams rest
    else renderParam p :: renderParams rest

/-- `get_function_signature`: `sig?` is `some` the parameter list when
`inspect.signature` succeeds and `none` when it raises
`ValueError`/`TypeError`, in which case the fallback returns the name with an
empty parameter list (the item is still produced by the callers). -/
def get_function_signature (fname : Str) (sig? : Option (List Param)) :
    Str × List Str :=
  match sig? with
  | none => (fname, [])
  | some ps => (fname, renderParams ps)

/-- Modelled from the spec: rendering rules as the claim states them, with
the variadic marker decided by the parameter kind first. -/
def specRenderParam (p : Param) : Str :=
  match p.kind with
  | PKind.varPositional => ( "*".toList) ++ p.name
  | PKind.varKeyword => ( "**".toList) ++ p.name
  | PKind.plain =>
    match p.dflt with
    | some (PDefault.pystr s) => p.name ++ ( "='".toList) ++ s ++ ( "'".toList)
    | some PDefault.pynone => p.name ++ ( "=None".toList)
    | some (PDefault.pyother r) => p.name ++ ( "=".toList) ++ r
    | none => p.name

/-- Modelled from the spec: drop exactly an implicit leading receiver
parameter (a first parameter named `self`), keeping any later one. -/
def specDropLeadingReceiver : List Param → List Param
  | [] => []
  | p :: rest => if p.name = ( "self".toList) then rest else p :: rest

/-- One harvested item as stored in `python_docs.json`: a dict with `name`,
`doc`, optionally `params` (default `[]` via `.get`), optionally `value`
(default `""` via `.get`) and optionally `type`
(`'constant'`/`'function'` for math-module items, absent elsewhere). -/
structure PyItem where
  type? : Option Str := none
  name : Str
  params : List Str := []
  value? : Option Str := none
  doc : Str
  deriving DecidableEq

/-- The `'constant'` tag. -/
def cConstant : Str := "constant".toList

/-- The `'function'` tag. -/
def cFunction : Str := "function".toList

/-- Test `item.get('type') == 'constant'`. -/
def isConstItem (it : PyItem) : Bool := it.type? == some cConstant

/-- Test `item.get('type') == 'function'`. -/
def isFuncItem (it : PyItem) : Bool := it.type? == some cFunction

/-- Newline separator for `'\n'.join`. -/
def nlSep : Str := [ '\n' ]

/-- `'\n'.join(xs)`. -/
def joinNl (xs : List Str) : Str := pyJoin nlSep xs

/-- Comma-space separator. -/
def commaSp : Str := [ ',', ' ' ]

/-- `', '.join(f'"{p}"' for p in params)`. -/
def quoteParams (ps : List Str) : Str :=
  pyJoin commaSp (ps.map (fun p => '"' :: p ++ [ '"' ]))

/-- Python `str.capitalize()`: first character upper-cased, the rest
lower-cased (ASCII view). -/
def pyCapitalize (s : Str) : Str :=
  match s with
  | [] => []
  | c :: rest => c.toUpper :: rest.map Char.toLower

namespace GenCompletions

/-- `generate_swift_completions.format_swift_array_item`: one completion item
as a Swift literal-construction expression; `is_const` selects the
`.constant` form (name, value, documentation), otherwise the `.function`
form (name, quoted parameter list, documentation). -/
def format_swift_array_item (it : PyItem) (is_const : Bool) : Str :=
  if is_const then
    ( ".constant(name: \"".toList) ++ it.name ++ ( "\", value: \"".toList)
      ++ (it.value?.getD []) ++ ( "\", documentation: \"".toList) ++ it.doc
      ++ ( "\")".toList)
  else
    ( ".function(name: \"".toList) ++ it.name ++ ( "\", parameters: [".toList)
      ++ quoteParams it.params ++ ( "], documentation: \"".toList) ++ it.doc
      ++ ( "\")".toList)

/-- Header line of the builtin-functions array. -/
def builtinsHdr : Str :=
  "    private static let builtinFunctions: [CompletionItem] = [".toList

/-- Closing line of a 4-space-indented array. -/
def closeBr : Str := "    ]".toList

/-- `generate_swift_completions.generate_builtin_functions`. -/
def generate_builtin_functions (data : List PyItem) : Str :=
  joinNl ([ builtinsHdr ]
    ++ data.map (fun it =>
        ( "        ".toList) ++ format_swift_array_item it false ++ [ ',' ])
    ++ [ closeBr ])

/-- The fixed `type_map` from Python type names to Swift struct names. -/
def type_map : List (Str × Str) :=
  [ ( "str".toList, "StringMethods".toList),
    ( "list".toList, "ListMethods".toList),
    ( "dict".toList, "DictMethods".toList),
    ( "set".toList, "SetMethods".toList),
    ( "frozenset".toList, "FrozensetMethods".toList),
    ( "bytes".toList, "BytesMethods".toList),
    ( "bytearray".toList, "BytearrayMethods".toList),
    ( "tuple".toList, "TupleMethods".toList) ]

/-- `generate_swift_completions.generate_type_methods`. -/
def generate_type_methods (type_name : Str) (methods : List PyItem) : Str :=
  let struct_name := ((type_map.lookup type_name).getD
    (pyCapitalize type_name ++ ( "Methods".toList)))
  joinNl ([ ( "    /// ".toList) ++ pyCapitalize type_name
        ++ ( " type methods - for use when type inference determines an object is a ".toList)
        ++ type_name,
      ( "    struct ".toList) ++ struct_name ++ ( " \x7b".toList),
      ( "        static let methods: [CompletionItem] = [".toList) ]
    ++ methods.map (fun it =>
        ( "            ".toList) ++ format_swift_array_item it false ++ [ ',' ])
    ++ [ ( "        ]".toList), ( "    \x7d".toList) ])

/-- Header line of the math-module array. -/
def mathHdr : Str :=
  "    private static let mathModuleCompletions: [CompletionItem] = [".toList

/-- `generate_swift_completions.generate_math_module`: constants (in harvest
order) strictly before functions (in harvest order), with comment lines when
the corresponding partition is non-empty; items whose `type` tag is neither
`'constant'` nor `'function'` fall into no partition and are omitted. -/
def generate_math_module (data : List PyItem) : Str :=
  let constants := data.filter isConstItem
  let functions := data.filter isFuncItem
  joinNl ([ mathHdr ]
    ++ (if constants.isEmpty then []
        else [ ( "        // Math module constants".toList) ])
    ++ constants.map (fun it =>
        ( "        ".toList) ++ format_swift_array_item it true ++ [ ',' ])
    ++ (if functions.isEmpty || constants.isEmpty then []
        else [ ([] : Str), ( "        // Math module functions".toList) ])
    ++ functions.map (fun it =>
        ( "        ".toList) ++ format_swift_array_item it false ++ [ ',' ])
    ++ [ closeBr ])

/-- The fixed type priority order iterated by `main`. -/
def type_order : List Str :=
  [ "str".toList, "list".toList, "dict".toList, "set".toList,
    "frozenset".toList, "bytes".toList, "bytearray".toList, "tuple".toList ]

/-- Header group of `main`'s `swift_code` (the timestamp line takes the
nondeterministic `datetime.now().isoformat()` text as the parameter `ts`). -/
def headerLines (ts : Str) : List Str :=
  [ "// MARK: - Generated Python Completions".toList,
    "// Generated from Python 3.13 documentation using inspect.getdoc()".toList,
    ( "// Generated on: ".toList) ++ ts,
    ([] : Str) ]

/-- Builtin-functions group of `main`'s `swift_code`. -/
def builtinsGroup (b : List PyItem) : List Str :=
  [ "    // MARK: - Built-in Functions".toList,
    generate_builtin_functions b,
    ([] : Str) ]

/-- Per-type block appended by `main` when the type is present in
`data['type_methods']`. -/
def typeGroupFor (tm : List (Str × List PyItem)) (tn : Str) : List Str :=
  match tm.lookup tn with
  | none => []
  | some ms =>
    [ ( "    // MARK: - ".toList) ++ pyCapitalize tn ++ ( " Methods".toList),
      generate_type_methods tn ms,
      ([] : Str) ]

/-- All per-type blocks, in the fixed `type_order`. -/
def typesGroup (tm : List (Str × List PyItem)) : List Str :=
  type_order.flatMap (typeGroupFor tm)

/-- Math-module group of `main`'s `swift_code`. -/
def mathGroup (m : List PyItem) : List Str :=
  [ "    // MARK: - Math Module".toList,
    generate_math_module m,
    ([] : Str) ]

/-- Pure text assembly of `generate_swift_completions.main`: the
`swift_code` list built by the successive `append` calls, joined with
newlines (the surrounding file I/O and prints are outside the embedding). -/
def gen_main (b : List PyItem) (tm : List (Str × List PyItem))
    (m : List PyItem) (ts : Str) : Str :=
  joinNl (headerLines ts ++ builtinsGroup b ++ typesGroup tm ++ mathGroup m)

end GenCompletions

namespace ApplyDocs

/-- The builtin-array header line; it is also the literal start marker that
`main` passes to `replace_section` for region 1. -/
def bHdr : Str :=
  "    private static let builtinFunctions: [CompletionItem] = [".toList

/-- Closing line of a 4-space-indented array. -/
def closeBr : Str := "    ]".toList

/-- The math-array header line; also the start marker for region 3. -/
def mHdr : Str :=
  "    private static let mathModuleCompletions: [CompletionItem] = [".toList

/-- End marker of the builtin region. -/
def endB : Str :=
  "    ]\n    \n    // MARK: - Built-in Type Method Definitions".toList

/-- Text appended after the generated builtin block in the replacement
(`new_builtins + "\n    \n    // MARK: - Built-in Type Method Definitions"`). -/
def tailB : Str :=
  "\n    \n    // MARK: - Built-in Type Method Definitions".toList

/-- End marker of the math region. -/
def endM : Str :=
  "    ]\n    \n    // MARK: - Sequence Operations".toList

/-- Text appended after the generated math block in the replacement. -/
def tailM : Str :=
  "\n    \n    // MARK: - Sequence Operations".toList

/-- The name keying the single rendering override. -/
def printName : Str := "print".toList

/-- First override needle `"end='"`. -/
def ovOld1 : Str := "end='".toList

/-- First override replacement (`"end='\\\\n"` in the Python source):
`end='` followed by two backslashes and `n`. -/
def ovNew1 : Str := "end='\\\\n".toList

/-- Second override needle `"'\""`: a single quote followed by a double
quote. -/
def ovOld2 : Str := "'\"".toList

/-- Second override replacement (`"'\\n\""` in the Python source): quote,
backslash, `n`, double quote. -/
def ovNew2 : Str := "'\\n\"".toList

/-- Parameter string of one builtin item in
`apply_harvested_docs.generate_builtin_functions`, including the
`print`-keyed override: two substring replacements applied to the already
joined quoted parameter list. -/
def builtin_params_str (it : PyItem) : Str :=
  let ps := quoteParams it.params
  if it.name = printName then
    pyReplace ovOld2 ovNew2 (pyReplace ovOld1 ovNew1 ps)
  else ps

/-- One emitted builtin line (8-space indent, trailing content as in the
f-string). -/
def builtin_line (it : PyItem) : Str :=
  ( "        .function(name: \"".toList) ++ it.name
    ++ ( "\", parameters: [".toList) ++ builtin_params_str it
    ++ ( "], documentation: \"".toList) ++ it.doc ++ ( "\")".toList)

/-- `apply_harvested_docs.generate_builtin_functions`. -/
def generate_builtin_functions (data : List PyItem) : Str :=
  joinNl ([ bHdr ] ++ data.map (fun it => builtin_line it ++ [ ',' ])
    ++ [ closeBr ])

/-- One emitted math constant line. -/
def constant_line (it : PyItem) : Str :=
  ( "        .constant(name: \"".toList) ++ it.name ++ ( "\", value: \"".toList)
    ++ (it.value?.getD []) ++ ( "\", documentation: \"".toList) ++ it.doc
    ++ ( "\")".toList)

/-- One emitted math function line (no override here). -/
def function_line (it : PyItem) : Str :=
  ( "        .function(name: \"".toList) ++ it.name
    ++ ( "\", parameters: [".toList) ++ quoteParams it.params
    ++ ( "], documentation: \"".toList) ++ it.doc ++ ( "\")".toList)

/-- `apply_harvested_docs.generate_math_module` (same splitting as the
generator script's version). -/
def generate_math_module (data : List PyItem) : Str :=
  let constants := data.filter isConstItem
  let functions := data.filter isFuncItem
  joinNl ([ mHdr ]
    ++ (if constants.isEmpty then []
        else [ ( "        // Math module constants".toList) ])
    ++ constants.map (fun it => constant_line it ++ [ ',' ])
    ++ (if functions.isEmpty || constants.isEmpty then []
        else [ ([] : Str), ( "        // Math module functions".toList) ])
    ++ functions.map (fun it => function_line it ++ [ ',' ])
    ++ [ closeBr ])

/-- The region-replacement transformation of `apply_harvested_docs.main` for
a harvest record whose `type_methods` mapping is empty: region 1 (builtin
functions) and region 3 (math module) go through `replace_section` with the
literal markers from the source, and the per-type regex loop of region 2 is
a no-op because `type_name not in data['type_methods']` holds for every
type.  File reading/writing and prints are outside the embedding. -/
def apply_regions (bs ms : List PyItem) (c : Str) : Str :=
  let c1 := replace_section c bHdr endB (generate_builtin_functions bs ++ tailB)
  replace_section c1 mHdr endM (generate_math_module ms ++ tailM)

/-- The `print` builtin exactly as harvested from Python 3.13
(`inspect.signature(print)` gives `(*args, sep=' ', end='\n', file=None,
flush=False)`; note the raw newline inside the `end` default). -/
def printItem : PyItem :=
  { name := printName,
    params := [ "*args".toList, "sep=' '".toList, "end='\n'".toList,
                "file=None".toList, "flush=False".toList ],
    doc := "Prints the values to a stream, or to sys.stdout by default.".toList }

/-- An ordinary harvested builtin used as the C3 record. -/
def absItem : PyItem :=
  { name := "abs".toList,
    params := [ "x".toList ],
    doc := "Return the absolute value of the argument.".toList }

/-- A well-formed target file for the builtin region: the start marker, an
old body, and the end marker. -/
def fileC0 : Str := bHdr ++ ( "\nOLD\n".toList) ++ endB

end ApplyDocs

/-- The `math.pi` constant item of the spec's Example 2. -/
def mathPiItem : PyItem :=
  { type? := some cConstant, name := "math.pi".toList,
    value? := some ( "3.141592653589793".toList),
    doc := "The mathematical constant pi.".toList }

/-- A math item with a malformed `type` tag. -/
def mathBadItem : PyItem :=
  { type? := some ( "other".toList), name := "math.bad".toList, doc := [] }

/-- A well-formed math function item. -/
def mathSqrtItem : PyItem :=
  { type? := some cFunction, name := "math.sqrt".toList,
    params := [ "x".toList ],
    doc := "Return the square root of x.".toList }

namespace RoundTrip

/-- Modelled from the spec: the fields recovered by re-parsing one emitted
literal-construction expression — kind (function vs constant), name,
parameter count and documentation.  No parser exists in the source; the spec
postulates the round trip, so this record and the parser below follow the
emitted grammar. -/
structure Parsed where
  isFunc : Bool
  name : Str
  paramCount : Nat
  doc : Str
  deriving DecidableEq

/-- Leading chunk of a function literal. -/
def headF : Str := ".function(name: \"".toList

/-- Leading chunk of a constant literal. -/
def headC : Str := ".constant(name: \"".toList

/-- Chunk between the name and the parameter list. -/
def midP : Str := "\", parameters: [".toList

/-- Chunk between the parameter list (after its closing `]`) and the
documentation. -/
def midD2 : Str := ", documentation: \"".toList

/-- Chunk between the name and the value of a constant. -/
def midV : Str := "\", value: \"".toList

/-- Chunk between the value and the documentation of a constant. -/
def midDq : Str := "\", documentation: \"".toList

/-- Trailing chunk. -/
def tailQ : Str := "\")".toList

/-- Modelled from the spec: strip the final `")` and return the
documentation text before it. -/
def parseDocTail (r : Str) : Option Str :=
  if 2 ≤ r.length ∧ r.drop (r.length - 2) = tailQ then
    some (r.take (r.length - 2))
  else none

/-- Modelled from the spec: count the double-quoted parameter strings of an
emitted `["p1", "p2"]` segment (opening `[` already consumed), returning the
count and the text after the closing `]`.  Fuel-bounded; the callers pass
the segment length plus one. -/
def parseParamsGo : Nat → Str → Option (Nat × Str)
  | 0, _ => none
  | fuel + 1, s =>
    match s with
    | ']' :: rest => some (0, rest)
    | '"' :: rest =>
      match rest.drop (rest.takeWhile (fun c => !(c == '"'))).length with
      | '"' :: ',' :: ' ' :: more =>
        match parseParamsGo fuel more with
        | some (n, r) => some (n + 1, r)
        | none => none
      | '"' :: ']' :: more => some (1, more)
      | _ => none
    | _ => none

/-- Modelled from the spec: parse the tail of a function literal (after the
leading `.function(name: "` chunk). -/
def parseFuncFrom (r0 : Str) : Option Parsed :=
  let nm := r0.takeWhile (fun c => !(c == '"'))
  let r1 := r0.drop nm.length
  if midP.isPrefixOf r1 then
    let r2 := r1.drop midP.length
    match parseParamsGo (r2.length + 1) r2 with
    | some (n, r3) =>
      if midD2.isPrefixOf r3 then
        match parseDocTail (r3.drop midD2.length) with
        | some d => some ⟨true, nm, n, d⟩
        | none => none
      else none
    | none => none
  else none

/-- Modelled from the spec: parse the tail of a constant literal (after the
leading `.constant(name: "` chunk). -/
def parseConstFrom (r0 : Str) : Option Parsed :=
  let nm := r0.takeWhile (fun c => !(c == '"'))
  let r1 := r0.drop nm.length
  if midV.isPrefixOf r1 then
    let r2 := r1.drop midV.length
    let v := r2.takeWhile (fun c => !(c == '"'))
    let r3 := r2.drop v.length
    if midDq.isPrefixOf r3 then
      match parseDocTail (r3.drop midDq.length) with
      | some d => some ⟨false, nm, 0, d⟩
      | none => none
    else none
  else none

/-- Modelled from the spec: re-parse an emitted literal-construction
expression into its fields. -/
def parseEmitted (s : Str) : Option Parsed :=
  if headF.isPrefixOf s then parseFuncFrom (s.drop headF.length)
  else if headC.isPrefixOf s then parseConstFrom (s.drop headC.length)
  else none

end RoundTrip

/-- A model item whose single parameter embeds a quote-comma-quote sequence. -/
def ambigItemX : PyItem :=
  { name := "f".toList, params := [ "x\", \"y".toList ], doc := "d".toList }

/-- A model item with two plain parameters. -/
def ambigItemY : PyItem :=
  { name := "f".toList, params := [ "x".toList, "y".toList ], doc := "d".toList }

section FindLemmas

theorem pyFindAux_eq_some (pat : Str) :
    ∀ (u : Str) (i0 d : Nat), d ≤ u.length →
      occursAt u pat d = true →
      (∀ d' < d, occursAt u pat d' = false) →
      pyFindAux pat u i0 = some (i0 + d) := by
  intro u
  induction u with
  | nil =>
    intro i0 d hd hocc _
    have hd0 : d = 0 := Nat.le_zero.mp hd
    subst hd0
    simp only [occursAt, List.drop_nil] at hocc
    simp [pyFindAux, hocc]
  | cons c rest ih =>
    intro i0 d hd hocc hmin
    cases d with
    | zero =>
      simp only [occursAt, List.drop_zero] at hocc
      simp [pyFindAux, hocc]
    | succ d' =>
      have h0 : occursAt (c :: rest) pat 0 = false := hmin 0 (Nat.succ_pos d')
      simp only [occursAt, List.drop_zero] at h0
      have hrec := ih (i0 + 1) d'
        (by simp only [List.length_cons] at hd; omega)
        (by simpa [occursAt] using hocc)
        (by
          intro k hk
          have := hmin (k + 1) (by omega)
          simpa [occursAt] using this)
      have harith : i0 + (d' + 1) = (i0 + 1) + d' := by omega
      rw [harith]
      rw [pyFindAux]
      simp [h0, hrec]

theorem pyFindAux_eq_none (pat : Str) :
    ∀ (u : Str) (i0 : Nat),
      (∀ d ≤ u.length, occursAt u pat d = false) →
      pyFindAux pat u i0 = none := by
  intro u
  induction u with
  | nil =>
    intro i0 h
    have h0 := h 0 (Nat.zero_le _)
    simp only [occursAt, List.drop_nil] at h0
    simp [pyFindAux, h0]
  | cons c rest ih =>
    intro i0 h
    have h0 := h 0 (Nat.zero_le _)
    simp only [occursAt, List.drop_zero] at h0
    have hrec := ih (i0 + 1) (by
      intro d hd
      have := h (d + 1) (by simpa using Nat.succ_le_succ hd)
      simpa [occursAt] using this)
    simp [pyFindAux, h0, hrec]

theorem occursAt_drop (s pat : Str) (st d : Nat) :
    occursAt (s.drop st) pat d = occursAt s pat (st + d) := by
  simp [occursAt, List.drop_drop, Nat.add_comm]

theorem pyFind_eq_some (s pat : Str) (st i : Nat)
    (hst : st ≤ i) (hlen : i ≤ s.length)
    (hocc : occursAt s pat i = true)
    (hmin : ∀ k < i, st ≤ k → occursAt s pat k = false) :
    pyFind s pat st = some i := by
  have hstlen : st ≤ s.length := le_trans hst hlen
  have hd : i - st ≤ (s.drop st).length := by
    simp [List.length_drop]
    omega
  have hocc' : occursAt (s.drop st) pat (i - st) = true := by
    rw [occursAt_drop]
    have : st + (i - st) = i := by omega
    rw [this]; exact hocc
  have hmin' : ∀ d' < i - st, occursAt (s.drop st) pat d' = false := by
    intro d' hd'
    rw [occursAt_drop]
    exact hmin (st + d') (by omega) (by omega)
  have := pyFindAux_eq_some pat (s.drop st) st (i - st) hd hocc' hmin'
  have heq : st + (i - st) = i := by omega
  rw [heq] at this
  simp [pyFind, Nat.not_lt.mpr hstlen]
  simpa [Nat.not_lt.mpr hstlen] using this

theorem pyFind_eq_none (s pat : Str) (st : Nat)
    (h : ∀ k, st ≤ k → k ≤ s.length → occursAt s pat k = false) :
    pyFind s pat st = none := by
  by_cases hst : s.length < st
  · simp [pyFind, hst]
  · have hstlen : st ≤ s.length := Nat.not_lt.mp hst
    have := pyFindAux_eq_none pat (s.drop st) st (by
      intro d hd
      rw [occursAt_drop]
      refine h (st + d) (by omega) ?_
      simp [List.length_drop] at hd
      omega)
    simp [pyFind, hst, this]

end FindLemmas

/-- C2 — Marker isolation / skip-on-missing-marker: if the start marker never
occurs in the content, or it first occurs at `i` but the end marker never
occurs at or after `i + start_marker.length`, then `replace_section` returns
its input byte-for-byte unchanged.  (The emitted warning is a side effect
outside the pure embedding; the function never raises.) -/
theorem C2_replace_section_skip (c s e n : Str)
    (h : (∀ k, k ≤ c.length → occursAt c s k = false) ∨
         (∃ i, i ≤ c.length ∧ occursAt c s i = true ∧
            (∀ k < i, occursAt c s k = false) ∧
            (∀ k, i + s.length ≤ k → k ≤ c.length → occursAt c e k = false))) :
    replace_section c s e n = c := by
  rcases h with h | ⟨i, hiLe, hiOcc, hiMin, hNoEnd⟩
  · have : pyFind c s 0 = none :=
      pyFind_eq_none c s 0 (by intro k _ hk; exact h k hk)
    simp [replace_section, this]
  · have hfind : pyFind c s 0 = some i :=
      pyFind_eq_some c s 0 i (Nat.zero_le _) hiLe hiOcc
        (by intro k hk _; exact hiMin k hk)
    have hnone : pyFind c e (i + s.length) = none :=
      pyFind_eq_none c e (i + s.length) hNoEnd
    simp [replace_section, hfind, hnone]

/-- Witness for C2: a file without the start marker is returned unchanged. -/
theorem C2_witness :
    (∀ k, k ≤ ( "hello world".toList : Str).length →
        occursAt ( "hello world".toList) ( "BEGIN".toList) k = false) ∧
    replace_section ( "hello world".toList) ( "BEGIN".toList) ( "END".toList)
      ( "new".toList) = ( "hello world".toList) := by
  refine ⟨by decide, ?_⟩
  exact C2_replace_section_skip _ _ _ _ (Or.inl (by decide))

/-- C1 (amended) — Region replacement: when the start marker first occurs at
`i` and the end marker first occurs at `j` (searching at or after
`i + start_marker.length`), `replace_section` keeps everything strictly
before the start marker and everything from the end marker onward, and
splices the snippet over the span in between.  The start marker is inside
the replaced span (it is dropped), the end marker is outside it (it is
preserved): the two ends are treated asymmetrically. -/
theorem C1_replace_section_span (c s e n : Str) (i j : Nat)
    (hiLe : i ≤ c.length) (hjLe : j ≤ c.length)
    (hiOcc : occursAt c s i = true)
    (hiMin : ∀ k < i, occursAt c s k = false)
    (hjLo : i + s.length ≤ j)
    (hjOcc : occursAt c e j = true)
    (hjMin : ∀ k < j, i + s.length ≤ k → occursAt c e k = false) :
    replace_section c s e n = c.take i ++ n ++ c.drop j := by
  have hfind : pyFind c s 0 = some i :=
    pyFind_eq_some c s 0 i (Nat.zero_le _) hiLe hiOcc
      (by intro k hk _; exact hiMin k hk)
  have hfind2 : pyFind c e (i + s.length) = some j :=
    pyFind_eq_some c e (i + s.length) j hjLo hjLe hjOcc
      (by intro k hk hk2; exact hjMin k hk hk2)
  simp [replace_section, hfind, hfind2]

/-- Witness for C1: in `"abSSxyEEcd"` the markers `"SS"`/`"EE"` first occur at
indices 2 and 6, and the replacement keeps the prefix before `"SS"` and the
suffix from `"EE"` on. -/
theorem C1_witness :
    occursAt ( "abSSxyEEcd".toList) ( "SS".toList) 2 = true ∧
    replace_section ( "abSSxyEEcd".toList) ( "SS".toList) ( "EE".toList)
      ( "NEW".toList) = ( "abNEWEEcd".toList) := by
  refine ⟨by decide, ?_⟩
  have h := C1_replace_section_span ( "abSSxyEEcd".toList) ( "SS".toList)
    ( "EE".toList) ( "NEW".toList) 2 6
    (by decide) (by decide) (by decide)
    (by decide) (by decide) (by decide) (by decide)
  simpa using h

/-- Counterexample for C1 as stated: the claim requires the markers to be
treated "exclusively or inclusively but consistently on both ends".  On the
file `"AXB"` with start marker `"A"`, end marker `"B"` and snippet `"Y"`, the
code returns `"YB"`; the consistent-exclusive convention would return
`"AYB"` (both markers preserved) and the consistent-inclusive convention
would return `"Y"` (both markers dropped).  The code matches neither: it
drops the start marker but preserves the end marker. -/
theorem C1_counterexample :
    replace_section ( "AXB".toList) ( "A".toList) ( "B".toList) ( "Y".toList)
        = ( "YB".toList) ∧
    replace_section_exclusive ( "AXB".toList) ( "A".toList) ( "B".toList)
        ( "Y".toList) = ( "AYB".toList) ∧
    replace_section_inclusive ( "AXB".toList) ( "A".toList) ( "B".toList)
        ( "Y".toList) = ( "Y".toList) ∧
    ( "YB".toList : Str) ≠ ( "AYB".toList) ∧
    ( "YB".toList : Str) ≠ ( "Y".toList) := by
  refine ⟨?_, ?_, ?_, by decide, by decide⟩ <;> decide

section CleanDocstringLemmas

theorem flatMap_congrF (f g : Char → Str) (h : ∀ a, f a = g a) :
    ∀ t : Str, t.flatMap f = t.flatMap g := by
  intro t
  induction t with
  | nil => simp
  | cons a r ih => simp [List.flatMap_cons, h a, ih]

theorem flatMap_comp (f g : Char → Str) :
    ∀ t : Str, (t.flatMap f).flatMap g = t.flatMap (fun a => (f a).flatMap g) := by
  intro t
  induction t with
  | nil => simp
  | cons a r ih => simp [List.flatMap_cons, List.flatMap_append, ih]

theorem pyReplaceGo_single (c : Char) (r : Str) :
    ∀ (fuel : Nat) (s : Str), s.length ≤ fuel →
      pyReplaceGo [ c ] r fuel s
        = s.flatMap (fun a => if a = c then r else [ a ]) := by
  intro fuel
  induction fuel with
  | zero =>
    intro s hs
    have h0 : s = [] := by
      cases s with
      | nil => rfl
      | cons a t => simp at hs
    subst h0
    simp [pyReplaceGo]
  | succ n ih =>
    intro s hs
    cases s with
    | nil => simp [pyReplaceGo]
    | cons a rest =>
      rw [pyReplaceGo]
      have hpre : ([ c ] : Str).isPrefixOf (a :: rest) = (c == a) := by
        simp [List.isPrefixOf]
      have hlen : rest.length ≤ n := by
        simp only [List.length_cons] at hs
        omega
      by_cases hac : c = a
      · subst hac
        simp [hpre, List.flatMap_cons, ih rest hlen]
      · have hba : (c == a) = false := by simp [hac]
        simp only [hpre, hba, Bool.false_and, Bool.and_eq_true, if_neg]
        simp only [List.flatMap_cons]
        have hne : ¬(a = c) := fun h => hac h.symm
        simp [hne, ih rest hlen]

theorem pyReplace_single (c : Char) (r s : Str) :
    pyReplace [ c ] r s = s.flatMap (fun a => if a = c then r else [ a ]) :=
  pyReplaceGo_single c r s.length s le_rfl

theorem escape_swift_eq_flatMap (t : Str) : escape_swift t = t.flatMap escChar := by
  unfold escape_swift
  rw [pyReplace_single, pyReplace_single, pyReplace_single, pyReplace_single]
  rw [flatMap_comp, flatMap_comp, flatMap_comp]
  apply flatMap_congrF
  intro a
  by_cases h1 : a = '\\'
  · subst h1; decide
  by_cases h2 : a = '"'
  · subst h2; decide
  by_cases h3 : a = '\n'
  · subst h3; decide
  by_cases h4 : a = '\r'
  · subst h4; decide
  simp [escChar, h1, h2, h3, h4]

theorem escChar_length (a : Char) : (escChar a).length ≤ 2 := by
  unfold escChar
  split_ifs <;> simp

theorem length_flatMap_le_two (f : Char → Str) (hf : ∀ a, (f a).length ≤ 2) :
    ∀ t : Str, (t.flatMap f).length ≤ 2 * t.length := by
  intro t
  induction t with
  | nil => simp
  | cons a r ih =>
    rw [List.flatMap_cons, List.length_append, List.length_cons]
    have := hf a
    omega

theorem joinSp_cons (x : Str) (xs : List Str) :
    joinSp (x :: xs) = if xs.isEmpty then x else x ++ ' ' :: joinSp xs := by
  cases xs <;> simp [joinSp, pyJoin, spSep]

theorem joinSp_snoc (xs : List Str) (x : Str) :
    joinSp (xs ++ [ x ]) = if xs.isEmpty then x else joinSp xs ++ ' ' :: x := by
  induction xs with
  | nil => simp [joinSp, pyJoin]
  | cons y ys ih =>
    rw [List.cons_append, joinSp_cons, joinSp_cons]
    cases ys with
    | nil => simp [joinSp, pyJoin]
    | cons z zs => simp_all

theorem joinSp_wsTokensGo_length :
    ∀ (s acc : Str), (joinSp (wsTokensGo acc s)).length ≤ acc.length + s.length := by
  intro s
  induction s with
  | nil =>
    intro acc
    rw [wsTokensGo]
    cases h : acc.isEmpty <;> simp [h, joinSp, pyJoin]
  | cons c rest ih =>
    intro acc
    rw [wsTokensGo]
    cases hws : pyIsSpaceB c
    · simp only [hws, Bool.false_eq_true, if_false]
      have := ih (c :: acc)
      simp only [List.length_cons] at this ⊢
      omega
    · simp only [hws, if_true]
      cases hacc : acc.isEmpty
      · simp only [Bool.false_eq_true, if_false]
        rw [joinSp_cons]
        have hrec := ih ([] : Str)
        simp only [List.length_nil, Nat.zero_add] at hrec
        cases hgo : (wsTokensGo ([] : Str) rest).isEmpty
        · simp only [Bool.false_eq_true, if_false, List.length_append,
            List.length_cons, List.length_reverse]
          omega
        · simp only [if_true, List.length_reverse, List.length_cons]
          omega
      · simp only [if_true]
        have hrec := ih ([] : Str)
        simp only [List.length_nil, Nat.zero_add] at hrec
        simp only [List.length_cons]
        omega

theorem maxStripLen_cons (l : Str) (rest : List Str) :
    maxStripLen (l :: rest) = max (pyStrip l).length (maxStripLen rest) := rfl

theorem paraLoop_bound :
    ∀ (lines : List Str) (acc : List Str), (joinSp acc).length ≤ 300 →
      (joinSp (paraLoop lines acc)).length ≤ 301 + maxStripLen lines := by
  intro lines
  induction lines with
  | nil =>
    intro acc h
    simp only [paraLoop]
    omega
  | cons l rest ih =>
    intro acc hacc
    rw [paraLoop]
    simp only []
    have hmax : (pyStrip l).length ≤ maxStripLen (l :: rest) := by
      rw [maxStripLen_cons]
      exact Nat.le_max_left _ _
    have hmax2 : maxStripLen rest ≤ maxStripLen (l :: rest) := by
      rw [maxStripLen_cons]
      exact Nat.le_max_right _ _
    cases h1 : ((pyStrip l).isEmpty && !acc.isEmpty)
    · simp only [Bool.false_eq_true, if_false]
      have hlen' : (joinSp (if (pyStrip l).isEmpty = true then acc
          else acc ++ [ pyStrip l ])).length
          ≤ (joinSp acc).length + 1 + (pyStrip l).length := by
        cases he : (pyStrip l).isEmpty
        · simp only [Bool.false_eq_true, if_false, joinSp_snoc]
          cases hae : acc.isEmpty
          · simp only [Bool.false_eq_true, if_false, List.length_append,
              List.length_cons]
            omega
          · simp only [if_true]
            have : joinSp acc = [] := by
              rw [List.isEmpty_iff] at hae
              simp [hae, joinSp, pyJoin]
            rw [this]
            simp
        · simp only [if_true]
          omega
      by_cases h2 : 300 < (joinSp (if (pyStrip l).isEmpty = true then acc
          else acc ++ [ pyStrip l ])).length
      · simp only [h2, if_true]
        omega
      · simp only [h2, if_false]
        have := ih (if (pyStrip l).isEmpty = true then acc
          else acc ++ [ pyStrip l ]) (by omega)
        omega
    · simp only [if_true]
      omega

end CleanDocstringLemmas

section NormalizationLemmas

theorem wsTokensGo_good :
    ∀ (s acc : Str), acc.all (fun c => !pyIsSpaceB c) = true →
      ∀ t ∈ wsTokensGo acc s,
        t ≠ [] ∧ t.all (fun c => !pyIsSpaceB c) = true := by
  intro s
  induction s with
  | nil =>
    intro acc hacc t ht
    rw [wsTokensGo] at ht
    cases h : acc.isEmpty
    · simp only [h, Bool.false_eq_true, if_false, List.mem_singleton] at ht
      subst ht
      constructor
      · simp only [ne_eq, List.reverse_eq_nil_iff]
        intro hx
        rw [hx] at h
        simp at h
      · rw [List.all_eq_true] at hacc ⊢
        intro x hx
        exact hacc x (List.mem_reverse.mp hx)
    · simp [h] at ht
  | cons c rest ih =>
    intro acc hacc t ht
    rw [wsTokensGo] at ht
    cases hws : pyIsSpaceB c
    · simp only [hws, Bool.false_eq_true, if_false] at ht
      refine ih (c :: acc) ?_ t ht
      simp [hacc, hws]
    · simp only [hws, if_true] at ht
      cases hae : acc.isEmpty
      · simp only [hae, Bool.false_eq_true, if_false, List.mem_cons] at ht
        rcases ht with ht | ht
        · subst ht
          constructor
          · simp only [ne_eq, List.reverse_eq_nil_iff]
            intro hx
            rw [hx] at hae
            simp at hae
          · rw [List.all_eq_true] at hacc ⊢
            intro x hx
            exact hacc x (List.mem_reverse.mp hx)
        · exact ih ([] : Str) (by simp) t ht
      · simp only [hae, if_true] at ht
        exact ih ([] : Str) (by simp) t ht

theorem noTwoWs_cons_cons (a b : Char) (r : Str) :
    noTwoWs (a :: b :: r) = ((!(pyIsSpaceB a && pyIsSpaceB b)) && noTwoWs (b :: r)) := rfl

theorem noTwoWs_of_all :
    ∀ t : Str, t.all (fun c => !pyIsSpaceB c) = true → noTwoWs t = true := by
  intro t
  induction t with
  | nil => intro _; rfl
  | cons a r ih =>
    intro h
    cases r with
    | nil => rfl
    | cons b r' =>
      rw [noTwoWs_cons_cons]
      simp only [List.all_cons, Bool.and_eq_true] at h
      simp [h.1, ih (by simp [h.2.1, h.2.2])]

theorem lastNonWs_of_all :
    ∀ t : Str, t.all (fun c => !pyIsSpaceB c) = true → lastNonWs t = true := by
  intro t
  induction t with
  | nil => intro _; rfl
  | cons a r ih =>
    intro h
    simp only [List.all_cons, Bool.and_eq_true] at h
    cases r with
    | nil => simp [lastNonWs, h.1]
    | cons b r' =>
      rw [lastNonWs, List.getLast?_cons_cons]
      have := ih h.2
      rw [lastNonWs] at this
      exact this

theorem noTwoWs_append_token :
    ∀ (t r : Str), t.all (fun c => !pyIsSpaceB c) = true → noTwoWs r = true →
      noTwoWs (t ++ r) = true := by
  intro t
  induction t with
  | nil => intro r _ hr; simpa
  | cons a t' ih =>
    intro r h hr
    simp only [List.all_cons, Bool.and_eq_true] at h
    cases t' with
    | nil =>
      simp only [List.nil_append, List.cons_append]
      cases r with
      | nil => rfl
      | cons b r' =>
        rw [noTwoWs_cons_cons]
        simp [h.1, hr]
    | cons d t'' =>
      rw [List.cons_append, List.cons_append, noTwoWs_cons_cons]
      have hall := h.2
      have := ih r hall hr
      rw [List.cons_append] at this
      simp [h.1, this]

theorem joinSp_ne_nil :
    ∀ ts : List Str, ts ≠ [] → (∀ t ∈ ts, t ≠ []) → joinSp ts ≠ [] := by
  intro ts
  cases ts with
  | nil => intro h; exact absurd rfl h
  | cons t ts' =>
    intro _ hall
    rw [joinSp_cons]
    cases he : ts'.isEmpty
    · simp only [Bool.false_eq_true, if_false]
      have ht : t ≠ [] := hall t (List.mem_cons_self t ts')
      cases t with
      | nil => exact absurd rfl ht
      | cons c u => simp
    · simp only [if_true]
      exact hall t (List.mem_cons_self t ts')

theorem headNonWs_append (t y : Str) (ht : t ≠ []) :
    headNonWs (t ++ y) = headNonWs t := by
  cases t with
  | nil => exact absurd rfl ht
  | cons c u => rfl

theorem joinSp_normalized :
    ∀ ts : List Str,
      (∀ t ∈ ts, t ≠ [] ∧ t.all (fun c => !pyIsSpaceB c) = true) →
      wsNormalized (joinSp ts) = true := by
  intro ts
  induction ts with
  | nil => intro _; rfl
  | cons t ts' ih =>
    intro h
    have ht := h t (List.mem_cons_self t ts')
    have hts' : ∀ u ∈ ts', u ≠ [] ∧ u.all (fun c => !pyIsSpaceB c) = true :=
      fun u hu => h u (List.mem_cons_of_mem t hu)
    rw [joinSp_cons]
    cases he : ts'.isEmpty
    · simp only [Bool.false_eq_true, if_false]
      have hne : ts' ≠ [] := by
        intro hx; rw [hx] at he; simp at he
      have hIH := ih hts'
      have hJne : joinSp ts' ≠ [] := joinSp_ne_nil ts' hne (fun u hu => (hts' u hu).1)
      rw [wsNormalized, Bool.and_eq_true, Bool.and_eq_true] at hIH ⊢
      obtain ⟨⟨ihHead, ihLast⟩, ihTwo⟩ := hIH
      refine ⟨⟨?_, ?_⟩, ?_⟩
      · rw [headNonWs_append _ _ ht.1]
        cases t with
        | nil => exact absurd rfl ht.1
        | cons c u =>
          have := ht.2
          simp only [List.all_cons, Bool.and_eq_true] at this
          simp [headNonWs, this.1]
      · rw [lastNonWs, List.getLast?_append]
        cases hJ : joinSp ts' with
        | nil => exact absurd hJ hJne
        | cons j js =>
          rw [lastNonWs, hJ] at ihLast
          simpa [List.getLast?_cons] using ihLast
      · refine noTwoWs_append_token t (' ' :: joinSp ts') ht.2 ?_
        cases hJ : joinSp ts' with
        | nil => exact absurd hJ hJne
        | cons j js =>
          rw [noTwoWs_cons_cons]
          rw [hJ] at ihHead ihTwo
          simp only [headNonWs] at ihHead
          simp [ihHead, ihTwo]
    · simp only [if_true]
      rw [wsNormalized, Bool.and_eq_true, Bool.and_eq_true]
      refine ⟨⟨?_, lastNonWs_of_all t ht.2⟩, noTwoWs_of_all t ht.2⟩
      cases t with
      | nil => exact absurd rfl ht.1
      | cons c u =>
        have := ht.2
        simp only [List.all_cons, Bool.and_eq_true] at this
        simp [headNonWs, this.1]

end NormalizationLemmas

section ParagraphStop

theorem paraLoop_blank :
    ∀ (A : List Str) (acc : List Str) (bl : Str) (B : List Str),
      (pyStrip bl).isEmpty = true →
      (acc ≠ [] ∨ A.any (fun l => !(pyStrip l).isEmpty) = true) →
      paraLoop (A ++ bl :: B) acc = paraLoop A acc := by
  intro A
  induction A with
  | nil =>
    intro acc bl B hbl h
    rcases h with h | h
    · rw [List.nil_append, paraLoop, paraLoop]
      simp only []
      have hne : acc.isEmpty = false := by
        cases acc with
        | nil => exact absurd rfl h
        | cons x xs => rfl
      simp [hbl, hne]
    · simp at h
  | cons l A' ih =>
    intro acc bl B hbl h
    rw [List.cons_append, paraLoop, paraLoop]
    simp only []
    cases h1 : ((pyStrip l).isEmpty && !acc.isEmpty)
    · simp only [Bool.false_eq_true, if_false]
      cases he : (pyStrip l).isEmpty
      · simp only [Bool.false_eq_true, if_false]
        by_cases h2 : 300 < (joinSp (acc ++ [ pyStrip l ])).length
        · simp only [h2, if_true]
        · simp only [h2, if_false]
          exact ih (acc ++ [ pyStrip l ]) bl B hbl (Or.inl (by simp))
      · have hacc : acc = [] := by
          cases acc with
          | nil => rfl
          | cons x xs => rw [he] at h1; simp at h1
        subst hacc
        simp only [if_true]
        have h2 : ¬ 300 < (joinSp ([] : List Str)).length := by
          simp [joinSp, pyJoin]
        simp only [h2, if_false]
        refine ih [] bl B hbl (Or.inr ?_)
        rcases h with h | h
        · exact absurd rfl h
        · simpa [he] using h
    · simp only [if_true]

theorem dropWhile_keeps_any :
    ∀ A : List Str, A.any (fun l => !(pyStrip l).isEmpty) = true →
      (A.dropWhile (fun l => (pyStrip l).isEmpty)).any
        (fun l => !(pyStrip l).isEmpty) = true := by
  intro A
  induction A with
  | nil => intro h; simp at h
  | cons l A' ih =>
    intro h
    rw [List.dropWhile_cons]
    cases he : (pyStrip l).isEmpty
    · simp [he]
    · simp only [if_true]
      refine ih ?_
      simpa [he] using h

theorem maxStripLen_dropWhile_le (p : Str → Bool) :
    ∀ lines : List Str, maxStripLen (lines.dropWhile p) ≤ maxStripLen lines := by
  intro lines
  induction lines with
  | nil => simp [maxStripLen]
  | cons l rest ih =>
    rw [List.dropWhile_cons]
    cases hp : p l
    · simp only [Bool.false_eq_true, if_false]
      exact le_refl _
    · simp only [if_true]
      calc maxStripLen (rest.dropWhile p) ≤ maxStripLen rest := ih
        _ ≤ maxStripLen (l :: rest) := by
              rw [maxStripLen_cons]; exact Nat.le_max_right _ _

end ParagraphStop

set_option maxRecDepth 4000 in
/-- Counterexample for C4 as stated: the claim bounds the output by 300
characters, but the length test in the loop runs only after a line has been
appended, so a single long line overshoots the cutoff.  A one-line docstring
of 301 `a`s comes out 301 characters long. -/
theorem C4_counterexample :
    300 < (clean_docstring (List.replicate 301 'a')).length := by decide

/-- C4 (amended) — shape of `clean_docstring` output: (1) the result is
whitespace-normalized (no leading or trailing whitespace, no internal run of
two whitespace characters); (2) accumulation stops at the first blank line
after a non-blank line: lines after the first blank line never influence the
result; (3) the length test runs only after appending a line, so the output
is not bounded by 300 as claimed but by twice (for escaping expansion)
301 plus the longest stripped line of the input. -/
theorem C4_clean_docstring_shape :
    (∀ doc : Str, wsNormalized (clean_docstring doc) = true) ∧
    (∀ (A : List Str) (bl : Str) (B : List Str),
        (pyStrip bl).isEmpty = true →
        A.any (fun l => !(pyStrip l).isEmpty) = true →
        cleanFromLines (A ++ bl :: B) = cleanFromLines A) ∧
    (∀ doc : Str, (clean_docstring doc).length
        ≤ 2 * (301 + maxStripLen (splitNl (pyStrip doc)))) := by
  refine ⟨?_, ?_, ?_⟩
  · intro doc
    rw [clean_docstring]
    cases h : doc.isEmpty
    · simp only [Bool.false_eq_true, if_false]
      rw [cleanFromLines]
      exact joinSp_normalized _ (wsTokensGo_good _ [] rfl)
    · simp only [if_true]
      rfl
  · intro A bl B hbl hany
    rw [cleanFromLines, cleanFromLines]
    have hne : ((A.dropWhile (fun l => (pyStrip l).isEmpty)).isEmpty) = false := by
      have := dropWhile_keeps_any A hany
      cases hx : A.dropWhile (fun l => (pyStrip l).isEmpty) with
      | nil => rw [hx] at this; simp at this
      | cons a b => rfl
    rw [List.dropWhile_append, hne]
    simp only [Bool.false_eq_true, if_false]
    rw [paraLoop_blank _ [] bl B hbl (Or.inr (dropWhile_keeps_any A hany))]
  · intro doc
    rw [clean_docstring]
    cases h : doc.isEmpty
    · simp only [Bool.false_eq_true, if_false]
      rw [cleanFromLines, wsTokens]
      have h1 := joinSp_wsTokensGo_length
        (escape_swift (joinSp (paraLoop ((splitNl (pyStrip doc)).dropWhile
          (fun l => (pyStrip l).isEmpty)) []))) []
      simp only [List.length_nil, Nat.zero_add] at h1
      have h2 : (escape_swift (joinSp (paraLoop ((splitNl (pyStrip doc)).dropWhile
          (fun l => (pyStrip l).isEmpty)) []))).length
          ≤ 2 * (joinSp (paraLoop ((splitNl (pyStrip doc)).dropWhile
          (fun l => (pyStrip l).isEmpty)) [])).length := by
        rw [escape_swift_eq_flatMap]
        exact length_flatMap_le_two escChar escChar_length _
      have h3 := paraLoop_bound ((splitNl (pyStrip doc)).dropWhile
        (fun l => (pyStrip l).isEmpty)) [] (by simp [joinSp, pyJoin])
      have h4 := maxStripLen_dropWhile_le (fun l => (pyStrip l).isEmpty)
        (splitNl (pyStrip doc))
      omega
    · simp only [if_true]
      simp

/-- Witness for C4 (amended): a blank line after a non-blank line cuts off the
rest of the docstring. -/
theorem C4_witness :
    (pyStrip ([] : Str)).isEmpty = true ∧
    cleanFromLines ([ "first line".toList ] ++ ([] : Str) :: [ "dropped".toList ])
      = cleanFromLines [ "first line".toList ] := by
  refine ⟨by decide, ?_⟩
  exact C4_clean_docstring_shape.2.1 [ "first line".toList ] ([] : Str)
    [ "dropped".toList ] (by decide) (by decide)

section EscapeSafety

theorem okEscaped_bs_cons (c2 : Char) (y : Str) :
    okEscaped ('\\' :: c2 :: y) = ((c2 == '\\' || c2 == '"') && okEscaped y) := by
  rw [okEscaped.eq_def]
  simp

theorem okEscaped_cons_plain (c : Char) (y : Str)
    (h1 : c ≠ '\\') (h2 : c ≠ '"') (h3 : c ≠ '\n') (h4 : c ≠ '\r') :
    okEscaped (c :: y) = okEscaped y := by
  rw [okEscaped.eq_def]
  simp [h1, h2, h3, h4]

theorem okEscaped_append_aux :
    ∀ (n : Nat) (x y : Str), x.length ≤ n → okEscaped x = true →
      okEscaped y = true → okEscaped (x ++ y) = true := by
  intro n
  induction n with
  | zero =>
    intro x y hx h1 h2
    have h0 : x = [] := by
      cases x with
      | nil => rfl
      | cons a t => simp at hx
    subst h0
    simpa
  | succ n ih =>
    intro x y hx h1 h2
    cases x with
    | nil => simpa
    | cons c rest =>
      by_cases hc : c = '\\'
      · subst hc
        cases rest with
        | nil => rw [okEscaped.eq_def] at h1; simp at h1
        | cons c2 rest2 =>
          rw [okEscaped_bs_cons] at h1
          rw [Bool.and_eq_true] at h1
          rw [List.cons_append, List.cons_append, okEscaped_bs_cons]
          rw [Bool.and_eq_true]
          refine ⟨h1.1, ?_⟩
          refine ih rest2 y ?_ h1.2 h2
          simp only [List.length_cons] at hx
          omega
      · by_cases hq : c = '"'
        · subst hq; rw [okEscaped.eq_def] at h1; simp at h1
        by_cases hn2 : c = '\n'
        · subst hn2; rw [okEscaped.eq_def] at h1; simp at h1
        by_cases hr2 : c = '\r'
        · subst hr2; rw [okEscaped.eq_def] at h1; simp at h1
        rw [okEscaped_cons_plain c rest hc hq hn2 hr2] at h1
        rw [List.cons_append, okEscaped_cons_plain c (rest ++ y) hc hq hn2 hr2]
        refine ih rest y ?_ h1 h2
        simp only [List.length_cons] at hx
        omega

theorem okEscaped_append (x y : Str) (hx : okEscaped x = true)
    (hy : okEscaped y = true) : okEscaped (x ++ y) = true :=
  okEscaped_append_aux x.length x y le_rfl hx hy

theorem okEscaped_escape (t : Str) : okEscaped (t.flatMap escChar) = true := by
  induction t with
  | nil => rfl
  | cons a r ih =>
    rw [List.flatMap_cons]
    by_cases h1 : a = '\\'
    · subst h1
      rw [show escChar '\\' = [ '\\', '\\' ] from by decide]
      rw [List.cons_append, List.cons_append, List.nil_append, okEscaped_bs_cons]
      simp [ih]
    by_cases h2 : a = '"'
    · subst h2
      rw [show escChar '"' = [ '\\', '"' ] from by decide]
      rw [List.cons_append, List.cons_append, List.nil_append, okEscaped_bs_cons]
      simp [ih]
    by_cases h3 : a = '\n'
    · subst h3
      rw [show escChar '\n' = [ ' ' ] from by decide]
      rw [List.cons_append, List.nil_append,
        okEscaped_cons_plain ' ' _ (by decide) (by decide) (by decide) (by decide)]
      exact ih
    by_cases h4 : a = '\r'
    · subst h4
      rw [show escChar '\r' = [ ' ' ] from by decide]
      rw [List.cons_append, List.nil_append,
        okEscaped_cons_plain ' ' _ (by decide) (by decide) (by decide) (by decide)]
      exact ih
    rw [show escChar a = [ a ] from by simp [escChar, h1, h2, h3, h4]]
    rw [List.cons_append, List.nil_append, okEscaped_cons_plain a _ h1 h2 h3 h4]
    exact ih

theorem okEscaped_wsTokensGo :
    ∀ (n : Nat) (u : Str), u.length ≤ n → ∀ acc : Str,
      okEscaped u = true → okEscaped acc.reverse = true →
      acc.all (fun c => !pyIsSpaceB c) = true →
      okEscaped (joinSp (wsTokensGo acc u)) = true := by
  intro n
  induction n with
  | zero =>
    intro u hu acc hU hAcc _
    have h0 : u = [] := by
      cases u with
      | nil => rfl
      | cons a t => simp at hu
    subst h0
    rw [wsTokensGo]
    cases hae : acc.isEmpty
    · simp only [Bool.false_eq_true, if_false]
      rw [joinSp_cons]
      simpa using hAcc
    · simp only [if_true]
      rfl
  | succ n ih =>
    intro u hu acc hU hAcc hAccWs
    cases u with
    | nil =>
      rw [wsTokensGo]
      cases hae : acc.isEmpty
      · simp only [Bool.false_eq_true, if_false]
        rw [joinSp_cons]
        simpa using hAcc
      · simp only [if_true]
        rfl
    | cons c rest =>
      by_cases hc : c = '\\'
      · subst hc
        cases rest with
        | nil => rw [okEscaped.eq_def] at hU; simp at hU
        | cons c2 rest2 =>
          rw [okEscaped_bs_cons, Bool.and_eq_true] at hU
          have hpair : c2 = '\\' ∨ c2 = '"' := by
            have := hU.1
            rcases Bool.or_eq_true_iff.mp this with h | h
            · exact Or.inl (by simpa using h)
            · exact Or.inr (by simpa using h)
          have hws1 : pyIsSpaceB '\\' = false := by decide
          have hws2 : pyIsSpaceB c2 = false := by
            rcases hpair with h | h <;> subst h <;> decide
          rw [wsTokensGo]
          simp only [hws1, Bool.false_eq_true, if_false]
          rw [wsTokensGo]
          simp only [hws2, Bool.false_eq_true, if_false]
          refine ih rest2 ?_ (c2 :: '\\' :: acc) hU.2 ?_ ?_
          · simp only [List.length_cons] at hu
            omega
          · rw [show (c2 :: '\\' :: acc).reverse = acc.reverse ++ [ '\\', c2 ]
              from by simp]
            refine okEscaped_append _ _ hAcc ?_
            rcases hpair with h | h <;> subst h <;> decide
          · simp [hAccWs, hws2, hws1]
      · by_cases hws : pyIsSpaceB c
        · by_cases hn3 : c = '\n'
          · subst hn3; rw [okEscaped.eq_def] at hU; simp at hU
          by_cases hr3 : c = '\r'
          · subst hr3; rw [okEscaped.eq_def] at hU; simp at hU
          have hq : c ≠ '"' := by
            intro h; subst h; exact absurd hws (by decide)
          rw [okEscaped_cons_plain c rest hc hq hn3 hr3] at hU
          rw [wsTokensGo]
          simp only [hws, if_true]
          have hrest : okEscaped (joinSp (wsTokensGo [] rest)) = true :=
            ih rest (by simp only [List.length_cons] at hu; omega) [] hU rfl rfl
          cases hae : acc.isEmpty
          · simp only [Bool.false_eq_true, if_false]
            rw [joinSp_cons]
            cases hgo : (wsTokensGo ([] : Str) rest).isEmpty
            · simp only [Bool.false_eq_true, if_false]
              refine okEscaped_append _ _ hAcc ?_
              rw [okEscaped_cons_plain ' ' _ (by decide) (by decide) (by decide)
                (by decide)]
              exact hrest
            · simp only [if_true]
              exact hAcc
          · simp only [if_true]
            exact hrest
        · by_cases hq : c = '"'
          · subst hq; rw [okEscaped.eq_def] at hU; simp at hU
          have hn3 : c ≠ '\n' := by
            intro h; subst h; exact absurd hws (by simp [pyIsSpaceB])
          have hr3 : c ≠ '\r' := by
            intro h; subst h; exact absurd hws (by simp [pyIsSpaceB])
          rw [okEscaped_cons_plain c rest hc hq hn3 hr3] at hU
          rw [wsTokensGo]
          have hwsf : pyIsSpaceB c = false := by
            cases hx : pyIsSpaceB c
            · rfl
            · exact absurd hx hws
          simp only [hwsf, Bool.false_eq_true, if_false]
          refine ih rest (by simp only [List.length_cons] at hu; omega)
            (c :: acc) hU ?_ ?_
          · rw [show (c :: acc).reverse = acc.reverse ++ [ c ] from by simp]
            refine okEscaped_append _ _ hAcc ?_
            rw [show ([ c ] : Str) = c :: [] from rfl,
              okEscaped_cons_plain c [] hc hq hn3 hr3]
            rfl
          · simp [hAccWs, hwsf]

end EscapeSafety

/-- C5 — Escaping invariant: for every input docstring, the output of
`clean_docstring` contains no raw newline or carriage return, every double
quote in it is consumed together with an escaping backslash, and every
backslash begins a `\\` or `\"` escape pair — so the result can be embedded
verbatim between double quotes in a Swift string literal. -/
theorem C5_clean_docstring_escaped (doc : Str) :
    okEscaped (clean_docstring doc) = true := by
  rw [clean_docstring]
  cases h : doc.isEmpty
  · simp only [Bool.false_eq_true, if_false]
    rw [cleanFromLines, wsTokens]
    refine okEscaped_wsTokensGo _ _ le_rfl [] ?_ rfl rfl
    rw [escape_swift_eq_flatMap]
    exact okEscaped_escape _
  · simp only [if_true]
    rfl

/-- Counterexample for C6 as stated: the claim says exactly the implicit
leading receiver parameter is dropped, but the loop skips every parameter
named `self`, wherever it occurs.  On the signature `(a, self)` the code
renders `["a"]` while the claim's reading renders `["a", "self"]`. -/
theorem C6_counterexample :
    renderParams [ ⟨ "a".toList, none, PKind.plain⟩,
                   ⟨ "self".toList, none, PKind.plain⟩ ]
        = [ "a".toList ] ∧
    (specDropLeadingReceiver [ ⟨ "a".toList, none, PKind.plain⟩,
                               ⟨ "self".toList, none, PKind.plain⟩ ]).map
        specRenderParam
        = [ "a".toList, "self".toList ] ∧
    ([ "a".toList ] : List Str) ≠ [ "a".toList, "self".toList ] := by
  refine ⟨by decide, by decide, by decide⟩

/-- C6 (amended) — parameter rendering: for signatures in which variadic
parameters carry no default (as `inspect` guarantees), the rendered list is
the signature-order parameters with every parameter named `self` dropped
(wherever it occurs, not only a leading receiver), each rendered by the
claim's rules: string defaults single-quoted, `None` defaults as `name=None`,
other defaults via their string form, `*name`/`**name` for variadics, bare
names otherwise.  When introspection fails, the result is the name with an
empty parameter list. -/
theorem C6_get_function_signature (ps : List Param)
    (hvar : ∀ p ∈ ps, (p.kind = PKind.varPositional ∨ p.kind = PKind.varKeyword) →
      p.dflt = none) :
    renderParams ps
        = (ps.filter (fun p => p.name ≠ ( "self".toList))).map specRenderParam ∧
    ∀ fname : Str, get_function_signature fname none = (fname, []) := by
  refine ⟨?_, fun _ => rfl⟩
  induction ps with
  | nil => rfl
  | cons p rest ih =>
    have hrest : ∀ q ∈ rest,
        (q.kind = PKind.varPositional ∨ q.kind = PKind.varKeyword) →
        q.dflt = none :=
      fun q hq => hvar q (List.mem_cons_of_mem p hq)
    rw [renderParams]
    by_cases hs : p.name = ( "self".toList)
    · simp only [hs, if_true]
      rw [List.filter_cons]
      simp [hs, ih hrest]
    · simp only [hs, if_false]
      rw [List.filter_cons]
      have hs' : ¬ p.name = [ 's', 'e', 'l', 'f' ] := hs
      have hpd : renderParam p = specRenderParam p := by
        rcases hk : p.kind with _ | _ | _
        · rw [renderParam, specRenderParam, hk]
          rcases hd : p.dflt with _ | d
          · rfl
          · rcases d with _ | s | r <;> simp
        · have hd := hvar p (List.mem_cons_self p rest) (Or.inl hk)
          rw [renderParam, specRenderParam, hk, hd]
        · have hd := hvar p (List.mem_cons_self p rest) (Or.inr hk)
          rw [renderParam, specRenderParam, hk, hd]
      simp [hs', hpd, ih hrest]

/-- Witness for C6 (amended): the `print`-style signature
`(*args, sep=' ', end=None)` renders to `["*args", "sep=' '", "end=None"]`. -/
theorem C6_witness :
    renderParams [ ⟨ "args".toList, none, PKind.varPositional⟩,
                   ⟨ "sep".toList, some (PDefault.pystr ( " ".toList)), PKind.plain⟩,
                   ⟨ "end".toList, some PDefault.pynone, PKind.plain⟩ ]
      = [ "*args".toList, "sep=' '".toList, "end=None".toList ] := by
  have h := (C6_get_function_signature
    [ ⟨ "args".toList, none, PKind.varPositional⟩,
      ⟨ "sep".toList, some (PDefault.pystr ( " ".toList)), PKind.plain⟩,
      ⟨ "end".toList, some PDefault.pynone, PKind.plain⟩ ]
    (by decide)).1
  rw [h]
  decide

set_option maxRecDepth 4000 in
/-- C8 — code bug in the `print` override: the override is keyed on the item
name `print`, but inside that item it is a pair of blind substring
replacements on the joined parameter string.  On the parameters actually
harvested for `print` in Python 3.13 (`*args, sep=' ', end='\n', file=None,
flush=False`) the result still contains the raw newline character (so the
emitted Swift line contains an unterminated string literal rather than a
clean escaped-newline token), and the rendering of the unrelated `sep`
parameter inside the same item is corrupted to `sep=' '\n`. -/
theorem C8_print_override_bug :
    ApplyDocs.builtin_params_str ApplyDocs.printItem
        = ( "\"*args\", \"sep=' '\\n\", \"end='\\\\n\n'\\n\", \"file=None\", \"flush=False\"".toList) ∧
    '\n' ∈ ApplyDocs.builtin_params_str ApplyDocs.printItem ∧
    occursAt (ApplyDocs.builtin_params_str ApplyDocs.printItem)
        ( "\"sep=' '\\n\"".toList) 9 = true := by
  refine ⟨by decide, by decide, by decide⟩

set_option maxRecDepth 8000 in
/-- C3 — code bug: applying the patch transformation twice is not
idempotent.  `main` passes `new_builtins + end-marker-text` as the
replacement while `replace_section` also keeps `content[end_idx:]`, which
still begins with the end marker, so every application inserts one more copy
of the end marker (58 bytes here) and the write-back comparison always sees
a change.  On a well-formed target file and a one-item record the second
application differs from the first. -/
theorem C3_apply_not_idempotent :
    ApplyDocs.apply_regions [ ApplyDocs.absItem ] []
        (ApplyDocs.apply_regions [ ApplyDocs.absItem ] [] ApplyDocs.fileC0)
      ≠ ApplyDocs.apply_regions [ ApplyDocs.absItem ] [] ApplyDocs.fileC0 := by
  decide

section EmitterLemmas

theorem pyJoin_cons (sep : Str) (x : Str) (xs : List Str) :
    pyJoin sep (x :: xs) = if xs.isEmpty then x else x ++ sep ++ pyJoin sep xs := by
  cases xs <;> simp [pyJoin]

theorem pyJoin_append (sep : Str) :
    ∀ (a b : List Str), a ≠ [] → b ≠ [] →
      pyJoin sep (a ++ b) = pyJoin sep a ++ sep ++ pyJoin sep b := by
  intro a
  induction a with
  | nil => intro b h _; exact absurd rfl h
  | cons x a' ih =>
    intro b _ hb
    rw [List.cons_append, pyJoin_cons, pyJoin_cons]
    cases a' with
    | nil =>
      have : (([] : List Str) ++ b).isEmpty = b.isEmpty := by simp
      cases hbe : b.isEmpty
      · simp [hbe]
      · rw [List.isEmpty_iff] at hbe
        exact absurd hbe hb
    | cons y a'' =>
      have h1 : ((y :: a'') ++ b).isEmpty = false := rfl
      have h2 : (y :: a'').isEmpty = false := rfl
      rw [h1, h2]
      simp only [Bool.false_eq_true, if_false]
      rw [ih b (by simp) hb]
      simp [List.append_assoc]

theorem filter_self_and (q : PyItem → Bool) (m : List PyItem) :
    (m.filter q).filter q = m.filter q := by
  rw [List.filter_filter]
  refine List.filter_congr ?_
  intro a _
  rw [Bool.and_self]

theorem isConstItem_isFuncItem_false (it : PyItem) :
    isConstItem it = true → isFuncItem it = true → False := by
  intro h1 h2
  rw [isConstItem, beq_iff_eq] at h1
  rw [isFuncItem, beq_iff_eq] at h2
  rw [h1] at h2
  simp only [Option.some.injEq] at h2
  have : cConstant ≠ cFunction := by decide
  exact this h2

theorem filter_const_of_fun (m : List PyItem) :
    (m.filter isFuncItem).filter isConstItem = [] := by
  rw [List.filter_filter]
  rw [List.filter_eq_nil_iff]
  intro a _
  intro hcontra
  rw [Bool.and_eq_true] at hcontra
  exact isConstItem_isFuncItem_false a hcontra.1 hcontra.2

theorem filter_fun_of_const (m : List PyItem) :
    (m.filter isConstItem).filter isFuncItem = [] := by
  rw [List.filter_filter]
  rw [List.filter_eq_nil_iff]
  intro a _
  intro hcontra
  rw [Bool.and_eq_true] at hcontra
  exact isConstItem_isFuncItem_false a hcontra.2 hcontra.1

theorem partition_filters (m : List PyItem) :
    (m.filter isConstItem ++ m.filter isFuncItem).filter isConstItem
        = m.filter isConstItem ∧
    (m.filter isConstItem ++ m.filter isFuncItem).filter isFuncItem
        = m.filter isFuncItem := by
  constructor
  · rw [List.filter_append, filter_self_and, filter_const_of_fun,
      List.append_nil]
  · rw [List.filter_append, filter_fun_of_const, filter_self_and,
      List.nil_append]

end EmitterLemmas

/-- C7 — Emission ordering: the generator's `main` assembles exactly four
groups in fixed order — the header block, the builtin-functions block, one
block per container type in the fixed `type_order` (types absent from the
record contribute nothing), then the math-module block — and within the math
block the emitted item sequence is the constants partition followed by the
functions partition: the math output is unchanged when the input is
rearranged into all constants (in harvest order) followed by all functions
(in harvest order). -/
theorem C7_emission_ordering (b : List PyItem) (tm : List (Str × List PyItem))
    (m : List PyItem) (ts : Str) :
    GenCompletions.gen_main b tm m ts
      = joinNl (GenCompletions.headerLines ts) ++ nlSep
        ++ joinNl (GenCompletions.builtinsGroup b) ++ nlSep
        ++ joinNl (GenCompletions.typesGroup tm ++ GenCompletions.mathGroup m) ∧
    GenCompletions.generate_math_module m
      = GenCompletions.generate_math_module
          (m.filter isConstItem ++ m.filter isFuncItem) := by
  constructor
  · rw [GenCompletions.gen_main, joinNl]
    rw [show GenCompletions.headerLines ts ++ GenCompletions.builtinsGroup b
        ++ GenCompletions.typesGroup tm ++ GenCompletions.mathGroup m
        = GenCompletions.headerLines ts ++ (GenCompletions.builtinsGroup b
          ++ (GenCompletions.typesGroup tm ++ GenCompletions.mathGroup m))
      from by simp [List.append_assoc]]
    rw [pyJoin_append nlSep (GenCompletions.headerLines ts) _ (by simp
      [GenCompletions.headerLines]) (by simp [GenCompletions.builtinsGroup,
      GenCompletions.typesGroup, GenCompletions.mathGroup])]
    rw [pyJoin_append nlSep (GenCompletions.builtinsGroup b) _ (by simp
      [GenCompletions.builtinsGroup]) (by simp [GenCompletions.typesGroup,
      GenCompletions.mathGroup])]
    simp [joinNl, List.append_assoc]
  · rw [GenCompletions.generate_math_module, GenCompletions.generate_math_module]
    rw [(partition_filters m).1, (partition_filters m).2]

/-- C10 — Malformed type tags in the math record: the math-module emitter
outputs exactly the items tagged `'constant'` or `'function'`; inserting an
item with any other (or missing) `type` tag anywhere in the list leaves the
emitted block byte-for-byte unchanged — no diagnostic, no placeholder, no
failure. -/
theorem C10_math_module_drops_untyped (d1 d2 : List PyItem) (it : PyItem)
    (hc : isConstItem it = false) (hf : isFuncItem it = false) :
    GenCompletions.generate_math_module (d1 ++ it :: d2)
      = GenCompletions.generate_math_module (d1 ++ d2) := by
  rw [GenCompletions.generate_math_module, GenCompletions.generate_math_module]
  rw [List.filter_append, List.filter_append, List.filter_cons, hc]
  rw [List.filter_append, List.filter_append, List.filter_cons, hf]
  simp

/-- Witness for C10: an item tagged `'other'` in the middle of a math record
is silently omitted. -/
theorem C10_witness :
    isConstItem mathBadItem = false ∧ isFuncItem mathBadItem = false ∧
    GenCompletions.generate_math_module
        ([ mathPiItem ] ++ mathBadItem :: [ mathSqrtItem ])
      = GenCompletions.generate_math_module ([ mathPiItem ] ++ [ mathSqrtItem ]) := by
  refine ⟨by decide, by decide, ?_⟩
  exact C10_math_module_drops_untyped _ _ _ (by decide) (by decide)

section RoundTripLemmas

theorem tw_quotefree :
    ∀ (x r : Str), (∀ c ∈ x, ¬ c = '"') →
      (x ++ '"' :: r).takeWhile (fun c => !(c == '"')) = x := by
  intro x
  induction x with
  | nil =>
    intro r _
    simp [List.takeWhile_cons]
  | cons a x' ih =>
    intro r h
    have ha : ¬ a = '"' := h a (List.mem_cons_self a x')
    rw [List.cons_append, List.takeWhile_cons]
    simp [ha, ih r (fun c hc => h c (List.mem_cons_of_mem a hc))]

theorem isPrefixOf_append_self (p rest : Str) :
    p.isPrefixOf (p ++ rest) = true := by
  rw [List.isPrefixOf_iff_prefix]
  exact List.prefix_append _ _

theorem parseDocTail_ok (d : Str) :
    RoundTrip.parseDocTail (d ++ RoundTrip.tailQ) = some d := by
  rw [RoundTrip.parseDocTail]
  have hlen : (d ++ RoundTrip.tailQ).length = d.length + 2 := by
    rw [List.length_append]
    rfl
  have hd : (d ++ RoundTrip.tailQ).length - 2 = d.length := by omega
  rw [hd, List.drop_left, List.take_left]
  rw [if_pos]
  exact ⟨by omega, rfl⟩

theorem parseParamsGo_ok :
    ∀ (ps : List Str) (rest : Str) (fuel : Nat),
      (∀ p ∈ ps, ∀ c ∈ p, ¬ c = '"') →
      (quoteParams ps).length < fuel →
      RoundTrip.parseParamsGo fuel (quoteParams ps ++ ']' :: rest)
        = some (ps.length, rest) := by
  intro ps
  induction ps with
  | nil =>
    intro rest fuel _ hf
    cases fuel with
    | zero => omega
    | succ f =>
      rw [show quoteParams [] = [] from rfl, List.nil_append]
      rfl
  | cons p ps' ih =>
    intro rest fuel h hf
    have hp : ∀ c ∈ p, ¬ c = '"' := h p (List.mem_cons_self p ps')
    have hps' : ∀ q ∈ ps', ∀ c ∈ q, ¬ c = '"' :=
      fun q hq => h q (List.mem_cons_of_mem p hq)
    cases fuel with
    | zero => omega
    | succ f =>
      cases ps' with
      | nil =>
        have hshape : quoteParams [ p ] ++ ']' :: rest
            = '"' :: (p ++ ('"' :: ']' :: rest)) := by
          simp [quoteParams, pyJoin, List.append_assoc]
        rw [hshape, RoundTrip.parseParamsGo]
        simp only [tw_quotefree p (']' :: rest) hp, List.drop_left]
        rfl
      | cons q qs =>
        have hshape : quoteParams (p :: q :: qs) ++ ']' :: rest
            = '"' :: (p ++ ('"' :: ',' :: ' ' ::
                (quoteParams (q :: qs) ++ ']' :: rest))) := by
          simp [quoteParams, pyJoin, commaSp, List.append_assoc]
        have hlen : (quoteParams (p :: q :: qs)).length
            = p.length + 4 + (quoteParams (q :: qs)).length := by
          have : quoteParams (p :: q :: qs)
              = ('"' :: p ++ [ '"' ]) ++ commaSp ++ quoteParams (q :: qs) := by
            simp [quoteParams, pyJoin, List.append_assoc]
          rw [this]
          simp [commaSp]
          omega
        rw [hshape, RoundTrip.parseParamsGo]
        simp only [tw_quotefree p _ hp, List.drop_left]
        rw [ih rest f hps' (by omega)]
        simp

end RoundTripLemmas

section RoundTripStage

theorem parseFuncFrom_ok (nm qd : Str) (ps : List Str)
    (hname : ∀ c ∈ nm, ¬ c = '"')
    (hps : ∀ p ∈ ps, ∀ c ∈ p, ¬ c = '"') :
    RoundTrip.parseFuncFrom
        (nm ++ ('"' :: ( ", parameters: [".toList
          ++ (quoteParams ps ++ (']' :: (RoundTrip.midD2 ++ (qd ++ RoundTrip.tailQ)))))))
      = some ⟨true, nm, ps.length, qd⟩ := by
  rw [RoundTrip.parseFuncFrom]
  simp only [tw_quotefree nm _ hname, List.drop_left]
  rw [show ('"' :: ( ", parameters: [".toList
        ++ (quoteParams ps ++ (']' :: (RoundTrip.midD2 ++ (qd ++ RoundTrip.tailQ))))))
      = RoundTrip.midP
        ++ (quoteParams ps ++ (']' :: (RoundTrip.midD2 ++ (qd ++ RoundTrip.tailQ))))
    from rfl]
  simp only [isPrefixOf_append_self, if_true, List.drop_left]
  rw [parseParamsGo_ok ps _ _ hps (by
    rw [List.length_append]
    omega)]
  simp only [isPrefixOf_append_self, if_true, List.drop_left,
    parseDocTail_ok]

theorem parseConstFrom_ok (nm v qd : Str)
    (hname : ∀ c ∈ nm, ¬ c = '"')
    (hv : ∀ c ∈ v, ¬ c = '"') :
    RoundTrip.parseConstFrom
        (nm ++ ('"' :: ( ", value: \"".toList
          ++ (v ++ ('"' :: ( ", documentation: \"".toList
            ++ (qd ++ RoundTrip.tailQ)))))))
      = some ⟨false, nm, 0, qd⟩ := by
  rw [RoundTrip.parseConstFrom]
  simp only [tw_quotefree nm _ hname, List.drop_left]
  rw [show ('"' :: ( ", value: \"".toList
        ++ (v ++ ('"' :: ( ", documentation: \"".toList ++ (qd ++ RoundTrip.tailQ))))))
      = RoundTrip.midV
        ++ (v ++ ('"' :: ( ", documentation: \"".toList ++ (qd ++ RoundTrip.tailQ))))
    from rfl]
  simp only [isPrefixOf_append_self, if_true, List.drop_left]
  simp only [tw_quotefree v _ hv, List.drop_left]
  rw [show ('"' :: ( ", documentation: \"".toList ++ (qd ++ RoundTrip.tailQ)))
      = RoundTrip.midDq ++ (qd ++ RoundTrip.tailQ) from rfl]
  simp only [isPrefixOf_append_self, if_true, List.drop_left,
    parseDocTail_ok]

theorem headF_not_headC (x : Str) :
    RoundTrip.headF.isPrefixOf (RoundTrip.headC ++ x) = false := by
  rw [show RoundTrip.headC ++ x = '.' :: 'c' :: ( "onstant(name: \"".toList ++ x)
    from rfl]
  rw [show RoundTrip.headF = '.' :: 'f' :: "unction(name: \"".toList from rfl]
  simp [List.isPrefixOf]

theorem parseEmitted_func (x : Str) :
    RoundTrip.parseEmitted (RoundTrip.headF ++ x) = RoundTrip.parseFuncFrom x := by
  rw [RoundTrip.parseEmitted]
  simp only [isPrefixOf_append_self, if_true, List.drop_left]

theorem parseEmitted_const (x : Str) :
    RoundTrip.parseEmitted (RoundTrip.headC ++ x) = RoundTrip.parseConstFrom x := by
  rw [RoundTrip.parseEmitted]
  simp only [headF_not_headC, Bool.false_eq_true, if_false,
    isPrefixOf_append_self, if_true, List.drop_left]

end RoundTripStage

/-- Counterexample for C9 as stated: the emitter inserts parameter strings
verbatim with no escaping, so two different model items — one with a single
parameter containing `", "`, one with two plain parameters — produce the
byte-identical emitted expression.  No re-parsing can recover both parameter
counts, so the round trip fails for arbitrary model items. -/
theorem C9_counterexample :
    GenCompletions.format_swift_array_item ambigItemX false
      = GenCompletions.format_swift_array_item ambigItemY false ∧
    ambigItemX.params.length = 1 ∧ ambigItemY.params.length = 2 := by
  refine ⟨by decide, by decide, by decide⟩

/-- C9 (amended) — Round-trip for quote-free fields: for every model item
whose name, parameter strings and value contain no double-quote character
(documentation is unrestricted: it sits between the last fixed delimiter and
the final `")`), re-parsing the emitted literal-construction expression
recovers the item's kind, name, parameter count (0 for the constant form)
and documentation exactly. -/
theorem C9_round_trip (it : PyItem) (b : Bool)
    (hname : ∀ c ∈ it.name, ¬ c = '"')
    (hparams : ∀ p ∈ it.params, ∀ c ∈ p, ¬ c = '"')
    (hvalue : ∀ c ∈ it.value?.getD [], ¬ c = '"') :
    RoundTrip.parseEmitted (GenCompletions.format_swift_array_item it b)
      = some ⟨!b, it.name, if b = true then 0 else it.params.length, it.doc⟩ := by
  cases b
  · rw [show GenCompletions.format_swift_array_item it false
        = RoundTrip.headF ++ (it.name ++ ('"' :: ( ", parameters: [".toList
          ++ (quoteParams it.params ++ (']' :: (RoundTrip.midD2
            ++ (it.doc ++ RoundTrip.tailQ)))))))
      from by
        rw [show GenCompletions.format_swift_array_item it false
            = ( ".function(name: \"".toList) ++ it.name
              ++ ( "\", parameters: [".toList) ++ quoteParams it.params
              ++ ( "], documentation: \"".toList) ++ it.doc
              ++ ( "\")".toList) from rfl]
        simp only [List.append_assoc]
        rfl]
    rw [parseEmitted_func, parseFuncFrom_ok it.name it.doc it.params hname hparams]
    rfl
  · rw [show GenCompletions.format_swift_array_item it true
        = RoundTrip.headC ++ (it.name ++ ('"' :: ( ", value: \"".toList
          ++ ((it.value?.getD []) ++ ('"' :: ( ", documentation: \"".toList
            ++ (it.doc ++ RoundTrip.tailQ)))))))
      from by
        rw [show GenCompletions.format_swift_array_item it true
            = ( ".constant(name: \"".toList) ++ it.name
              ++ ( "\", value: \"".toList) ++ (it.value?.getD [])
              ++ ( "\", documentation: \"".toList) ++ it.doc
              ++ ( "\")".toList) from rfl]
        simp only [List.append_assoc]
        rfl]
    rw [parseEmitted_const,
      parseConstFrom_ok it.name (it.value?.getD []) it.doc hname hvalue]
    rfl

/-- Witness for C9 (amended): the spec's Example 1 item round-trips. -/
theorem C9_witness :
    (∀ c ∈ ApplyDocs.absItem.name, ¬ c = '"') ∧
    RoundTrip.parseEmitted
        (GenCompletions.format_swift_array_item ApplyDocs.absItem false)
      = some ⟨true, "abs".toList, 1,
          "Return the absolute value of the argument.".toList⟩ := by
  refine ⟨by decide, ?_⟩
  have h := C9_round_trip ApplyDocs.absItem false (by decide) (by decide)
    (by decide)
  rw [h]
  rfl
